import Mathlib

/-!
Verification of the resume-matching search core: a shallow embedding of
`app/embeddings.py` (index build and nearest-neighbour search) and of the
query-interpretation / rerank pipeline in `app/main.py`, together with
theorems settling the specified properties.

Modelling conventions:
* Python floats are idealised as exact rationals (`ℚ`); decimal literals
  such as `0.6` denote the exact decimal value.
* The sentence-transformer embedding model is an external deterministic
  function; it is passed around explicitly as `embed : String → List ℚ`.
* The record store (SQLAlchemy session) is a snapshot `List Resume`; a
  query `db.query(Resume).all()` returns that list, and
  `db.query(Resume).filter(Resume.id.in_(ids)).all()` returns the
  store-order sublist of records whose id occurs in `ids`.
* The process-wide globals `faiss_index` / `id_map` are an explicit
  `IndexState` threaded through the functions that read or write them.
-/

/-- A row of the `resumes` table (`app/models.py`), as read by the search
core: its integer primary key, the stored text fields, the nullable
years-of-experience column, and the names of the associated skills. -/
structure Resume where
  id : Nat
  candidate_name : String
  title : Option String
  years_experience : Option ℚ
  location : Option String
  raw_text : String
  skills : List String
deriving DecidableEq, Repr

/-- The module-level mutable state of `app/embeddings.py`: the faiss index
(its stored vectors, in insertion order) when one has been built, and the
parallel `id_map` from index position to resume id. -/
structure IndexState where
  faiss_index : Option (List (List ℚ))
  id_map : List Nat
deriving DecidableEq, Repr

/-- The state at module load: `faiss_index = None`, `id_map = []`. -/
def initState : IndexState := { faiss_index := none, id_map := [] }

/-- `build_index` (`app/embeddings.py` lines 13-32).  With an empty record
store it returns early, leaving both globals untouched.  Otherwise it
replaces `id_map` with the resume ids (store order) and the index with the
embeddings of the raw texts.  (The function also writes `embedding_dim`
back to the database; that column is never read by the search core and is
outside the modelled state.) -/
def build_index (embed : String → List ℚ) (resumes : List Resume)
    (s : IndexState) : IndexState :=
  if resumes = [] then s
  else
    { faiss_index := some (resumes.map (fun r => embed r.raw_text)),
      id_map := resumes.map (fun r => r.id) }

/-- Inner product of two vectors, the score used by `faiss.IndexFlatIP`. -/
def dotQ (v w : List ℚ) : ℚ := (List.zipWith (fun a b => a * b) v w).sum

/-- The filler score faiss reports for padded entries when fewer than `k`
neighbours exist (`-FLT_MAX` for the inner-product metric). -/
def sentinelScore : ℚ := -((2 ^ 24 - 1) * 2 ^ 104)

/-- `faiss_index.search(q, k)` on an exact inner-product flat index: score
every stored vector against the query, order by descending score (the
model breaks exact score ties by ascending position, which is immaterial
to the theorems below), keep the best `k`, and — faiss's documented
behaviour when `k` exceeds the number of stored vectors — pad the result
up to length `k` with label `-1` and a sentinel score. -/
def faissSearch (vecs : List (List ℚ)) (q : List ℚ) (k : Nat) :
    List (Int × ℚ) :=
  let scored : List (Int × ℚ) :=
    (List.range vecs.length).map (fun i => (Int.ofNat i, dotQ q (vecs.getD i [])))
  let sorted := scored.mergeSort (fun a b => decide (b.2 ≤ a.2))
  sorted.take k ++ List.replicate (k - vecs.length) ((-1 : Int), sentinelScore)

/-- Python list indexing as used in `id_map[idx]`: a negative index counts
from the end of the list (faiss's padding label `-1` therefore selects the
last entry of `id_map`). -/
def pyIndex (l : List Nat) (i : Int) : Nat :=
  if i < 0 then l.getD (l.length - (-i).toNat) 0 else l.getD i.toNat 0

/-- `search_similar` (`app/embeddings.py` lines 34-46).  If no index has
been built it first runs `build_index` against the current record store;
if there is still no index it returns no results.  Otherwise it embeds the
query, runs the faiss search, and translates each returned position to a
resume id through `id_map`. -/
def search_similar (embed : String → List ℚ) (resumes : List Resume)
    (s : IndexState) (query_text : String) (top_k : Nat) :
    IndexState × List (Nat × ℚ) :=
  let s1 := match s.faiss_index with
    | none => build_index embed resumes s
    | some _ => s
  match s1.faiss_index with
  | none => (s1, [])
  | some vecs =>
      (s1, (faissSearch vecs (embed query_text) top_k).map
        (fun p => (pyIndex s1.id_map p.1, p.2)))

/-- The structured requirement produced by the query interpreter. -/
structure Requirement where
  must_have_skills : List String
  min_years : Nat
deriving DecidableEq, Repr

/-- The fixed skill vocabulary scanned by `simple_extract_requirements`. -/
def skillKeywords : List String :=
  ["python", "flask", "fastapi", "react", "node", "aws", "docker"]

/-- `message.lower()` as a character list (ASCII case folding, which
covers every pattern the interpreter scans for). -/
def lowerList (message : String) : List Char :=
  message.toList.map Char.toLower

/-- Python's `needle in text` substring test. -/
def containsSub (needle : String) (hay : List Char) : Bool :=
  decide (needle.toList <:+: hay)

/-- The pattern `f"{y} year"`. -/
def yearPattern (y : Nat) : String := toString y ++ " year"

/-- The pattern `f"{y} years"`. -/
def yearsPattern (y : Nat) : String := toString y ++ " years"

/-- `simple_extract_requirements` (`app/main.py` lines 49-59): lower-case
the message, keep the vocabulary keywords occurring as substrings, and
scan `y = 1..15` in order, overwriting `min_years` with each `y` whose
pattern occurs. -/
def simple_extract_requirements (message : String) : Requirement :=
  let text := lowerList message
  let must_have := skillKeywords.filter (fun kw => containsSub kw text)
  let min_years := (List.range' 1 15).foldl
    (fun acc y =>
      if containsSub (yearPattern y) text || containsSub (yearsPattern y) text
      then y else acc) 0
  { must_have_skills := must_have, min_years := min_years }

/-- `compute_skill_match` (`app/main.py` lines 62-68): the required-skill
list and the resume's skill names are converted to sets; an empty
requirement set scores `1.0`, otherwise the score is the intersection size
over the requirement size. -/
def compute_skill_match (resume : Resume) (must_have_skills : List String) : ℚ :=
  let resume_skill_names := resume.skills.toFinset
  let must := must_have_skills.toFinset
  if must = ∅ then 1
  else ((must ∩ resume_skill_names).card : ℚ) / (must.card : ℚ)

/-- The dictionary `{r_id: score for r_id, score in semantic_results}`
read with `.get(r.id, 0.0)`: a duplicated key keeps the last score, and a
missing key yields `0.0`. -/
def id_to_sim (semantic_results : List (Nat × ℚ)) (rid : Nat) : ℚ :=
  ((semantic_results.filter (fun p => p.1 == rid)).getLast?.map
    (fun p => p.2)).getD 0

/-- The blended score `0.6 * sim_score + 0.4 * skill_match`
(`app/main.py` line 357). -/
def final_score (sim_score skill_match : ℚ) : ℚ :=
  0.6 * sim_score + 0.4 * skill_match

/-- Python's banker's rounding of a rational to the nearest integer:
round half to even. -/
def roundHalfEven (q : ℚ) : Int :=
  let f : Int := ⌊q⌋
  let r : ℚ := q - (f : ℚ)
  if r < 1 / 2 then f
  else if 1 / 2 < r then f + 1
  else if f % 2 = 0 then f else f + 1

/-- Python's `round(x, 2)`. -/
def round2 (x : ℚ) : ℚ := ((roundHalfEven (x * 100) : ℚ)) / 100

/-- The fields of the `ResumeOut` payload (`app/schemas.py`) that carry
data (the display-only `explanation` string is not modelled):
`match_score` and `skill_match_score` are the `×100`-scaled,
2-decimal-rounded scores computed in the `/search` route. -/
structure ResumeOut where
  id : Nat
  candidate_name : String
  title : Option String
  years_experience : Option ℚ
  location : Option String
  skills : List String
  match_score : ℚ
  skill_match_score : ℚ
deriving DecidableEq, Repr

/-- `r.years_experience is not None and r.years_experience < min_years`. -/
def years_below (years : Option ℚ) (min_years : Nat) : Bool :=
  match years with
  | some y => decide (y < (min_years : ℚ))
  | none => false

/-- The hard experience filter of the `/search` route (`app/main.py`
lines 349-354): `min_years` is truthy, the years are known, and they fall
strictly below the threshold. -/
def excludedByExperience (min_years : Nat) (r : Resume) : Bool :=
  (min_years != 0) && years_below r.years_experience min_years

/-- The `ResumeOut` constructed for one surviving resume in the `/search`
loop (`app/main.py` lines 355-372). -/
def toResumeOut (must_have : List String) (semantic_results : List (Nat × ℚ))
    (r : Resume) : ResumeOut :=
  let skill_match := compute_skill_match r must_have
  let sim_score := id_to_sim semantic_results r.id
  let fs := final_score sim_score skill_match
  { id := r.id, candidate_name := r.candidate_name, title := r.title,
    years_experience := r.years_experience, location := r.location,
    skills := r.skills,
    match_score := round2 (fs * 100),
    skill_match_score := round2 (skill_match * 100) }

/-- The body of the `/search` result loop: drop resumes failing the
experience filter, build a `ResumeOut` for the rest. -/
def processResumes (must_have : List String) (min_years : Nat)
    (semantic_results : List (Nat × ℚ)) (resumes : List Resume) :
    List ResumeOut :=
  resumes.filterMap (fun r =>
    if excludedByExperience min_years r then none
    else some (toResumeOut must_have semantic_results r))

/-- `sorted(out, key=lambda x: x.match_score, reverse=True)`: Python's
stable descending sort keyed on the rounded `match_score`. -/
def scoreDesc (a b : ResumeOut) : Bool := decide (b.match_score ≤ a.match_score)

/-- Sorting and the `out_sorted[:top_k]` truncation of the `/search`
route. -/
def rerank (must_have : List String) (min_years : Nat)
    (semantic_results : List (Nat × ℚ)) (resumes : List Resume)
    (top_k : Nat) : List ResumeOut :=
  ((processResumes must_have min_years semantic_results resumes).mergeSort
    scoreDesc).take top_k

/-- The `/search` route (`app/main.py` lines 329-384): interpret the
message, fetch `top_k * 3` semantic candidates (possibly rebuilding the
index), hydrate the ids that still exist in the record store, filter,
score, sort and truncate. -/
def search_route (embed : String → List ℚ) (store : List Resume)
    (s : IndexState) (message : String) (top_k : Nat) :
    IndexState × List ResumeOut :=
  let req := simple_extract_requirements message
  let res := search_similar embed store s message (top_k * 3)
  let semantic_results := res.2
  let ids := semantic_results.map (fun p => p.1)
  let resumes := store.filter (fun r => ids.contains r.id)
  (res.1, rerank req.must_have_skills req.min_years semantic_results resumes top_k)

/-! ### Helper lemmas and concrete fixtures -/

unseal List.mergeSort List.merge in
/-- A two-element stable sort picks the order by one comparison. -/
theorem mergeSort_pair {α : Type} (le : α → α → Bool) (a b : α) :
    List.mergeSort [a, b] le = if le a b then [a, b] else [b, a] := by
  cases h : le a b <;> simp [List.mergeSort, List.merge, h]

/-- A `filterMap` whose function drops on a Boolean test and otherwise maps
is the map of the filter. -/
theorem filterMap_ite {α β : Type} (c : α → Bool) (f : α → β) (l : List α) :
    (l.filterMap fun a => if c a then none else some (f a))
      = (l.filter fun a => !(c a)).map f := by
  induction l with
  | nil => rfl
  | cons x xs ih => cases hx : c x <;> simp [List.filterMap_cons, hx, ih]

/-- A deterministic one-dimensional embedding function used as a fixture. -/
def embedOne : String → List ℚ := fun _ => [1]

/-- A store fixture: one resume with id 7. -/
def resume7 : Resume :=
  { id := 7, candidate_name := "G", title := none, years_experience := none,
    location := none, raw_text := "golang golang golang", skills := [] }

/-! ### C8 — rebuilding twice equals rebuilding once -/

/-- C8: calling the index rebuild twice in succession with no intervening
change to the record store leaves exactly the index contents (id map and
stored vectors) a single call produces. -/
theorem build_index_idempotent (embed : String → List ℚ)
    (records : List Resume) (s : IndexState) :
    build_index embed records (build_index embed records s)
      = build_index embed records s := by
  by_cases h : records = [] <;> simp [build_index, h]

/-! ### C9 — search rebuilds the index when none exists -/

/-- C9: when no index has been built, `search_similar` first mutates the
process-wide state by running a full rebuild from the record store, and its
results are computed against that freshly rebuilt index. -/
theorem search_rebuilds_when_unbuilt (embed : String → List ℚ)
    (records : List Resume) (s : IndexState) (q : String) (k : Nat)
    (h : s.faiss_index = none) :
    search_similar embed records s q k
      = (build_index embed records s,
         match (build_index embed records s).faiss_index with
         | none => []
         | some vecs =>
             (faissSearch vecs (embed q) k).map
               (fun p => (pyIndex (build_index embed records s).id_map p.1, p.2))) := by
  simp only [search_similar, h]
  cases (build_index embed records s).faiss_index <;> rfl

/-- Witness for C9 at a concrete unbuilt state and one-record store. -/
theorem search_rebuilds_when_unbuilt_witness :
    initState.faiss_index = none ∧
    search_similar embedOne [resume7] initState "q" 3
      = (build_index embedOne [resume7] initState,
         match (build_index embedOne [resume7] initState).faiss_index with
         | none => []
         | some vecs =>
             (faissSearch vecs (embedOne "q") 3).map
               (fun p => (pyIndex (build_index embedOne [resume7] initState).id_map p.1, p.2))) :=
  ⟨rfl, search_rebuilds_when_unbuilt embedOne [resume7] initState "q" 3 rfl⟩

/-! ### C2 — rebuild on an empty store (corrected: it is a no-op) -/

unseal List.mergeSort List.merge in
/-- C2 counterexample: after building an index over a one-record store and
then emptying the store, a rebuild leaves the old index fully in place —
the index is not empty, and a subsequent search still returns the deleted
record's id from the previously built index. -/
theorem rebuild_empty_keeps_stale_index :
    build_index embedOne [] (build_index embedOne [resume7] initState)
        = build_index embedOne [resume7] initState
    ∧ (build_index embedOne [] (build_index embedOne [resume7] initState)).faiss_index ≠ none
    ∧ ((search_similar embedOne []
          (build_index embedOne [] (build_index embedOne [resume7] initState)) "q" 1).2.map
        (fun p => p.1)) = [7] := by
  refine ⟨by decide, by decide, by decide⟩

/-- C2 (amended): rebuilding with an empty record store is a no-op that
leaves the previous index state — vectors and id map — unchanged; searches
return the empty list only as long as no index has ever been successfully
built. -/
theorem rebuild_empty_noop (embed : String → List ℚ) (s : IndexState)
    (q : String) (k : Nat) :
    build_index embed [] s = s
    ∧ (s.faiss_index = none → (search_similar embed [] s q k).2 = []) := by
  constructor
  · simp [build_index]
  · intro h
    simp [search_similar, h, build_index]

/-! ### C6 — the skill-match ratio -/

/-- Modelled from the spec: the skill-match formula in the Reranker
contract, stated over plain sets — the intersection of the required-skill
set with the candidate's skill set, divided by the size of the
required-skill set, and exactly `1.0` for an empty requirement.  Used only
to compare the code's `compute_skill_match` against the spec's words. -/
def skillMatchSpec (required candidate : Finset String) : ℚ :=
  if required = ∅ then 1
  else ((required ∩ candidate).card : ℚ) / (required.card : ℚ)

/-- C6: `compute_skill_match` equals the spec's set formula — intersection
size over requirement size, `1.0` exactly when the required-skill set is
empty — and always lies in `[0, 1]`. -/
theorem compute_skill_match_correct (r : Resume) (must : List String) :
    compute_skill_match r must = skillMatchSpec must.toFinset r.skills.toFinset
    ∧ 0 ≤ compute_skill_match r must ∧ compute_skill_match r must ≤ 1 := by
  refine ⟨rfl, ?_, ?_⟩
  · by_cases h : must.toFinset = ∅ <;> simp [compute_skill_match, h]
    positivity
  · by_cases h : must.toFinset = ∅ <;> simp [compute_skill_match, h]
    have hpos : 0 < ((must.toFinset.card : ℚ)) := by
      exact_mod_cast Finset.card_pos.mpr (Finset.nonempty_iff_ne_empty.mpr h)
    rw [div_le_one hpos]
    exact_mod_cast Finset.card_le_card Finset.inter_subset_left

/-! ### C5 — the hard experience filter -/

/-- C5: the rerank loop keeps exactly the hydrated resumes that pass the
experience filter, and the filter fires precisely when the threshold is
strictly positive, the years-of-experience is known, and that known value
is strictly below the threshold — so unknown years are never excluded. -/
theorem experience_filter_correct (must : List String) (min_years : Nat)
    (sem : List (Nat × ℚ)) (resumes : List Resume) :
    ((processResumes must min_years sem resumes).map (fun o => o.id)
      = (resumes.filter (fun r => !(excludedByExperience min_years r))).map
          (fun r => r.id))
    ∧ ∀ (r : Resume),
        (excludedByExperience min_years r = true
          ↔ 0 < min_years ∧ ∃ y, r.years_experience = some y ∧ y < (min_years : ℚ)) := by
  constructor
  · rw [processResumes, filterMap_ite, List.map_map]
    rfl
  · intro r
    cases hy : r.years_experience <;>
      simp [excludedByExperience, years_below, hy, Nat.pos_iff_ne_zero]

/-! ### C7 — the blended final score -/

/-- C7: every surviving candidate's surfaced score is the rounded, scaled
form of `0.6 * similarity + 0.4 * skill_match` with the similarity looked
up from the semantic results; the similarity of an id carried by no
semantic entry is `0.0`; and the blend is exactly `1` at `(1, 1)` and
exactly `0` at `(0, 0)`. -/
theorem final_score_correct (must : List String) (min_years : Nat)
    (sem : List (Nat × ℚ)) (resumes : List Resume) :
    ((processResumes must min_years sem resumes).map (fun o => o.match_score)
      = (resumes.filter (fun r => !(excludedByExperience min_years r))).map
          (fun r => round2 (final_score (id_to_sim sem r.id)
              (compute_skill_match r must) * 100)))
    ∧ final_score 1 1 = 1 ∧ final_score 0 0 = 0
    ∧ ∀ (sem2 : List (Nat × ℚ)) (rid : Nat),
        id_to_sim (sem2.filter (fun p => p.1 != rid)) rid = 0 := by
  refine ⟨?_, by norm_num [final_score], by norm_num [final_score], ?_⟩
  · rw [processResumes, filterMap_ite, List.map_map]
    rfl
  · intro sem2 rid
    have hnil : (sem2.filter (fun p => p.1 != rid)).filter (fun p => p.1 == rid) = [] := by
      rw [List.filter_filter]
      apply List.filter_eq_nil_iff.mpr
      intro p _
      cases h : p.1 == rid <;> simp_all
    rw [id_to_sim, hnil]
    rfl

/-! ### C4 — the minimum-years scan takes the largest matching pattern -/

/-- Folding an overwrite-on-match accumulator over a `≤`-sorted list ends
on the last — hence largest — matching element, or on the start value when
nothing matches. -/
theorem foldl_overwrite_sorted (p : Nat → Bool) :
    ∀ (l : List Nat) (a : Nat), l.Pairwise (fun x y => x ≤ y) →
      (l.foldl (fun acc y => if p y then y else acc) a = a ∧ ∀ y ∈ l, p y = false)
      ∨ ((l.foldl (fun acc y => if p y then y else acc) a) ∈ l
         ∧ p (l.foldl (fun acc y => if p y then y else acc) a) = true
         ∧ ∀ y ∈ l, p y = true → y ≤ l.foldl (fun acc y => if p y then y else acc) a) := by
  intro l
  induction l with
  | nil => intro a _; exact Or.inl ⟨rfl, by simp⟩
  | cons x xs ih =>
      intro a hpw
      obtain ⟨hle, hpw2⟩ := List.pairwise_cons.mp hpw
      rw [List.foldl_cons]
      by_cases hx : p x = true
      · rw [if_pos hx]
        rcases ih x hpw2 with ⟨heq, hnone⟩ | ⟨hmem, hp, hmax⟩
        · refine Or.inr ⟨?_, ?_, ?_⟩
          · rw [heq]; exact List.mem_cons_self x xs
          · rw [heq]; exact hx
          · intro y hy hpy
            rcases List.mem_cons.mp hy with rfl | hy2
            · rw [heq]
            · exact absurd hpy (by simp [hnone y hy2])
        · refine Or.inr ⟨List.mem_cons.mpr (Or.inr hmem), hp, ?_⟩
          intro y hy hpy
          rcases List.mem_cons.mp hy with rfl | hy2
          · exact hle _ hmem
          · exact hmax y hy2 hpy
      · rw [if_neg hx]
        rcases ih a hpw2 with ⟨heq, hnone⟩ | ⟨hmem, hp, hmax⟩
        · refine Or.inl ⟨heq, ?_⟩
          intro y hy
          rcases List.mem_cons.mp hy with rfl | hy2
          · exact Bool.not_eq_true _ ▸ hx
          · exact hnone y hy2
        · refine Or.inr ⟨List.mem_cons.mpr (Or.inr hmem), hp, ?_⟩
          intro y hy hpy
          rcases List.mem_cons.mp hy with rfl | hy2
          · exact absurd hpy hx
          · exact hmax y hy2 hpy

/-- The Boolean pattern test of the `min_years` scan, as a proposition. -/
theorem yearMatch_iff (y : Nat) (t : List Char) :
    (containsSub (yearPattern y) t || containsSub (yearsPattern y) t) = true
      ↔ ((yearPattern y).toList <:+: t ∨ (yearsPattern y).toList <:+: t) := by
  simp [containsSub]

/-- C4: the extracted `min_years` is the largest `N` in `1..15` whose
pattern `"<N> year"` or `"<N> years"` occurs in the lower-cased message,
and `0` when no such `N` occurs. -/
theorem min_years_is_max_pattern (message : String) :
    ((simple_extract_requirements message).min_years = 0
      ∧ ∀ N : Nat, 1 ≤ N → N ≤ 15 →
          ¬((yearPattern N).toList <:+: lowerList message
             ∨ (yearsPattern N).toList <:+: lowerList message))
    ∨ (1 ≤ (simple_extract_requirements message).min_years
       ∧ (simple_extract_requirements message).min_years ≤ 15
       ∧ ((yearPattern (simple_extract_requirements message).min_years).toList
             <:+: lowerList message
           ∨ (yearsPattern (simple_extract_requirements message).min_years).toList
             <:+: lowerList message)
       ∧ ∀ N : Nat, 1 ≤ N → N ≤ 15 →
           ((yearPattern N).toList <:+: lowerList message
             ∨ (yearsPattern N).toList <:+: lowerList message) →
           N ≤ (simple_extract_requirements message).min_years) := by
  have hpw : (List.range' 1 15).Pairwise (fun x y => x ≤ y) := by decide
  have hmem : ∀ N : Nat, N ∈ List.range' 1 15 ↔ 1 ≤ N ∧ N ≤ 15 := by
    intro N
    rw [List.mem_range'_1]
    omega
  have hdef : (simple_extract_requirements message).min_years
      = (List.range' 1 15).foldl
          (fun acc y =>
            if containsSub (yearPattern y) (lowerList message)
                || containsSub (yearsPattern y) (lowerList message)
            then y else acc) 0 := rfl
  rcases foldl_overwrite_sorted
      (fun y => containsSub (yearPattern y) (lowerList message)
        || containsSub (yearsPattern y) (lowerList message))
      (List.range' 1 15) 0 hpw with ⟨heq, hnone⟩ | ⟨hin, hp, hmax⟩
  · left
    refine ⟨by rw [hdef]; exact heq, ?_⟩
    intro N h1 h15 hocc
    have := hnone N ((hmem N).mpr ⟨h1, h15⟩)
    rw [← yearMatch_iff N (lowerList message)] at hocc
    rw [this] at hocc
    exact Bool.false_ne_true hocc
  · right
    rw [← hdef] at hin hp hmax
    obtain ⟨h1, h15⟩ := (hmem _).mp hin
    refine ⟨h1, h15, (yearMatch_iff _ _).mp hp, ?_⟩
    intro N hN1 hN15 hocc
    exact hmax N ((hmem N).mpr ⟨hN1, hN15⟩) ((yearMatch_iff _ _).mpr hocc)

/-! ### C1 — rebuild then search returns every id (corrected: k = corpus size) -/

/-- Reading every position of a list in order rebuilds the list. -/
theorem map_getD_range {α : Type} (l : List α) (d : α) :
    (List.range l.length).map (fun i => l.getD i d) = l := by
  induction l with
  | nil => rfl
  | cons x xs ih =>
      rw [List.length_cons, List.range_succ_eq_map, List.map_cons, List.map_map]
      have hz : (x :: xs).getD 0 d = x := rfl
      have hcomp : ((fun i => (x :: xs).getD i d) ∘ Nat.succ) = fun i => xs.getD i d := by
        funext i
        rfl
      rw [hz, hcomp, ih]

/-- A second store fixture: one resume with id 9. -/
def resume9 : Resume :=
  { id := 9, candidate_name := "H", title := none, years_experience := some 3,
    location := none, raw_text := "python and flask", skills := ["python", "flask"] }

unseal List.mergeSort List.merge in
/-- C1 counterexample: over a one-record corpus (id 7), a rebuild followed
by a search with `k = 2 > corpus size` returns id 7 twice — faiss pads the
missing neighbour with position `-1`, and Python's negative indexing turns
that into the last entry of `id_map` — so an id is duplicated rather than
returned exactly once. -/
theorem search_k_exceeding_corpus_duplicates :
    (((search_similar embedOne [resume7]
        (build_index embedOne [resume7] initState) "q" 2).2).map (fun p => p.1))
      = [7, 7]
    ∧ (((search_similar embedOne [resume7]
        (build_index embedOne [resume7] initState) "q" 2).2).map (fun p => p.1)).count 7
      ≠ 1 := ⟨by decide, by decide⟩

/-- C1 (amended): for every non-empty record set with pairwise-distinct
external ids, rebuilding the index and then searching with `k` equal to
the corpus size returns every record's external id exactly once — the
returned ids are a permutation of the stored ids and contain no
duplicate. -/
theorem rebuild_search_returns_all_ids (embed : String → List ℚ)
    (records : List Resume) (s : IndexState) (q : String)
    (h1 : records ≠ []) (h2 : (records.map (fun r => r.id)).Nodup) :
    (((search_similar embed records (build_index embed records s) q
        records.length).2).map (fun p => p.1)).Perm (records.map (fun r => r.id))
    ∧ (((search_similar embed records (build_index embed records s) q
        records.length).2).map (fun p => p.1)).Nodup := by
  have hbuild : build_index embed records s
      = { faiss_index := some (records.map (fun r => embed r.raw_text)),
          id_map := records.map (fun r => r.id) } := by
    simp [build_index, h1]
  have hsearch : (search_similar embed records (build_index embed records s) q
        records.length).2
      = (faissSearch (records.map (fun r => embed r.raw_text)) (embed q)
          records.length).map
          (fun p => (pyIndex (records.map (fun r => r.id)) p.1, p.2)) := by
    rw [hbuild]
    rfl
  have hvlen : (records.map (fun r => embed r.raw_text)).length = records.length :=
    List.length_map _ _
  have hidlen : (records.map (fun r => r.id)).length = records.length :=
    List.length_map _ _
  have hperm0 :
      (faissSearch (records.map (fun r => embed r.raw_text)) (embed q)
          records.length).Perm
        ((List.range records.length).map
          (fun i => (Int.ofNat i,
            dotQ (embed q) ((records.map (fun r => embed r.raw_text)).getD i [])))) := by
    unfold faissSearch
    rw [hvlen, Nat.sub_self, List.replicate_zero, List.append_nil]
    have hms := List.mergeSort_perm
      ((List.range records.length).map
        (fun i => (Int.ofNat i,
          dotQ (embed q) ((records.map (fun r => embed r.raw_text)).getD i []))))
      (fun a b => decide (b.2 ≤ a.2))
    have hlen2 : ((List.range records.length).map
        (fun i => (Int.ofNat i,
          dotQ (embed q) ((records.map (fun r => embed r.raw_text)).getD i [])))).length
        = records.length := by simp
    rw [List.take_of_length_le (by rw [hms.length_eq, hlen2])]
    exact hms
  have hids : (((search_similar embed records (build_index embed records s) q
        records.length).2).map (fun p => p.1)).Perm (records.map (fun r => r.id)) := by
    rw [hsearch, List.map_map]
    have hmapped := hperm0.map (fun p : Int × ℚ => pyIndex (records.map (fun r => r.id)) p.1)
    have heval : ((List.range records.length).map
          (fun i => (Int.ofNat i,
            dotQ (embed q) ((records.map (fun r => embed r.raw_text)).getD i [])))).map
          (fun p : Int × ℚ => pyIndex (records.map (fun r => r.id)) p.1)
        = records.map (fun r => r.id) := by
      rw [List.map_map]
      have : ((fun p : Int × ℚ => pyIndex (records.map (fun r => r.id)) p.1) ∘
            (fun i => (Int.ofNat i,
              dotQ (embed q) ((records.map (fun r => embed r.raw_text)).getD i []))))
          = fun i => (records.map (fun r => r.id)).getD i 0 := by
        funext i
        simp [pyIndex]
      rw [this, ← hidlen, map_getD_range]
    rw [heval] at hmapped
    exact hmapped
  exact ⟨hids, (hids.nodup_iff).mpr h2⟩

/-- Witness for C1 at a concrete two-record store. -/
theorem rebuild_search_returns_all_ids_witness :
    ([resume7, resume9] ≠ ([] : List Resume))
    ∧ ([resume7, resume9].map (fun r => r.id)).Nodup
    ∧ ((((search_similar embedOne [resume7, resume9]
          (build_index embedOne [resume7, resume9] initState) "q"
          ([resume7, resume9].length)).2).map (fun p => p.1)).Perm
            ([resume7, resume9].map (fun r => r.id))
        ∧ (((search_similar embedOne [resume7, resume9]
          (build_index embedOne [resume7, resume9] initState) "q"
          ([resume7, resume9].length)).2).map (fun p => p.1)).Nodup) :=
  ⟨by decide, by decide,
    rebuild_search_returns_all_ids embedOne [resume7, resume9] initState "q"
      (by decide) (by decide)⟩

/-! ### C3 — rerank ordering (corrected: keyed on the rounded score) -/

/-- Evaluation rule for `roundHalfEven` below the half-way point. -/
theorem roundHalfEven_of_floor (q : ℚ) (z : Int) (hf : ⌊q⌋ = z)
    (hr : q - (z : ℚ) < 1 / 2) : roundHalfEven q = z := by
  unfold roundHalfEven
  rw [hf, if_pos hr]

/-- Evaluation rule for `roundHalfEven` above the half-way point. -/
theorem roundHalfEven_of_floor_up (q : ℚ) (z : Int) (hf : ⌊q⌋ = z)
    (hr : 1 / 2 < q - (z : ℚ)) : roundHalfEven q = z + 1 := by
  unfold roundHalfEven
  rw [hf, if_neg (by linarith), if_pos hr]

/-- A candidate fixture with id 1 and no skills. -/
def resumeP : Resume :=
  { id := 1, candidate_name := "P", title := none, years_experience := none,
    location := none, raw_text := "p", skills := [] }

/-- A candidate fixture with id 2 and no skills. -/
def resumeQ : Resume :=
  { id := 2, candidate_name := "Q", title := none, years_experience := none,
    location := none, raw_text := "r", skills := [] }

/-- Semantic scores whose full-precision final scores differ but whose
rounded display scores coincide. -/
def semC3 : List (Nat × ℚ) := [(1, 33334 / 100000), (2, 33333 / 100000)]

/-- C3 counterexample: with the semantic scores of `semC3` and the
hydration order `[resumeQ, resumeP]`, the rerank returns id 2 before
id 1 even though id 1's full-precision final score is strictly larger
(both round to the same display score of 60, so the stable sort keeps the
hydration order) — refuting both the full-precision ordering and the
ascending-id tie-break of the claim. -/
theorem rerank_not_full_precision_sorted :
    ((rerank [] 0 semC3 [resumeQ, resumeP] 5).map (fun o => o.id) = [2, 1])
    ∧ final_score (id_to_sim semC3 2) (compute_skill_match resumeQ [])
        < final_score (id_to_sim semC3 1) (compute_skill_match resumeP []) := by
  have e1 : id_to_sim semC3 1 = 33334 / 100000 := by
    simp [id_to_sim, semC3]
  have e2 : id_to_sim semC3 2 = 33333 / 100000 := by
    simp [id_to_sim, semC3]
  have hsm : ∀ r : Resume, compute_skill_match r [] = 1 := by
    intro r
    simp [compute_skill_match]
  have hmsP : (toResumeOut [] semC3 resumeP).match_score = 60 := by
    show round2 (final_score (id_to_sim semC3 1) (compute_skill_match resumeP []) * 100) = 60
    rw [hsm, e1]
    have hq : final_score (33334 / 100000 : ℚ) 1 * 100 * 100 = 600004 / 100 := by
      norm_num [final_score]
    rw [round2, hq, roundHalfEven_of_floor (600004 / 100) 6000 (by norm_num) (by norm_num)]
    norm_num
  have hmsQ : (toResumeOut [] semC3 resumeQ).match_score = 60 := by
    show round2 (final_score (id_to_sim semC3 2) (compute_skill_match resumeQ []) * 100) = 60
    rw [hsm, e2]
    have hq : final_score (33333 / 100000 : ℚ) 1 * 100 * 100 = 599998 / 100 := by
      norm_num [final_score]
    rw [round2, hq, roundHalfEven_of_floor_up (599998 / 100) 5999 (by norm_num) (by norm_num)]
    norm_num
  have hproc : processResumes [] 0 semC3 [resumeQ, resumeP]
      = [toResumeOut [] semC3 resumeQ, toResumeOut [] semC3 resumeP] := by
    simp [processResumes, excludedByExperience]
  have hsd : scoreDesc (toResumeOut [] semC3 resumeQ) (toResumeOut [] semC3 resumeP)
      = true := by
    simp only [scoreDesc, hmsP, hmsQ]
    simp
  have hrer : rerank [] 0 semC3 [resumeQ, resumeP] 5
      = [toResumeOut [] semC3 resumeQ, toResumeOut [] semC3 resumeP] := by
    rw [rerank, hproc, mergeSort_pair, if_pos hsd]
    rfl
  constructor
  · rw [hrer]
    rfl
  · rw [e1, e2, hsm, hsm]
    norm_num [final_score]

/-- C3 (amended): the reranked output is an initial segment, of length at
most `top_k`, of a permutation of the processed candidates that is sorted
in descending order of the surfaced `match_score` — the ×100-scaled,
2-decimal-rounded display score, not the full-precision final score (ties
keep the hydration order of the stable sort). -/
theorem rerank_sorted_by_rounded_score (must : List String) (min_years : Nat)
    (sem : List (Nat × ℚ)) (resumes : List Resume) (top_k : Nat) :
    ∃ l : List ResumeOut,
      (processResumes must min_years sem resumes).Perm l
      ∧ l.Pairwise (fun a b => b.match_score ≤ a.match_score)
      ∧ rerank must min_years sem resumes top_k = l.take top_k
      ∧ (rerank must min_years sem resumes top_k).length ≤ top_k := by
  refine ⟨(processResumes must min_years sem resumes).mergeSort scoreDesc,
    (List.mergeSort_perm _ _).symm, ?_, rfl, ?_⟩
  · have hs := @List.sorted_mergeSort ResumeOut scoreDesc
      (fun a b c hab hbc => by
        simp only [scoreDesc, decide_eq_true_eq] at *
        exact le_trans hbc hab)
      (fun a b => by
        simp only [scoreDesc, Bool.or_eq_true, decide_eq_true_eq]
        exact le_total b.match_score a.match_score)
      (processResumes must min_years sem resumes)
    exact hs.imp (fun h => by simpa [scoreDesc] using h)
  · rw [rerank]
    exact List.length_take_le _ _

/-! ### C10 — hydration silently drops ids that no longer resolve -/

/-- C10: every candidate in the final ranked output of the `/search`
pipeline carries the id of a record that currently exists in the record
store — an id returned by the vector search that no longer resolves is
silently omitted during hydration rather than raising an error. -/
theorem search_output_ids_exist (embed : String → List ℚ)
    (store : List Resume) (s : IndexState) (message : String) (top_k : Nat) :
    ((search_route embed store s message top_k).2).all
      (fun o => decide (o.id ∈ store.map (fun r => r.id))) = true := by
  rw [List.all_eq_true]
  intro o ho
  rw [decide_eq_true_eq]
  simp only [search_route, rerank] at ho
  have h1 := List.mem_of_mem_take ho
  have h2 := (List.mergeSort_perm _ scoreDesc).mem_iff.mp h1
  rw [processResumes] at h2
  obtain ⟨r, hr, heq⟩ := List.mem_filterMap.mp h2
  by_cases hc : excludedByExperience
      (simple_extract_requirements message).min_years r = true
  · rw [if_pos hc] at heq
    exact absurd heq (by simp)
  · rw [if_neg hc] at heq
    have hid : o.id = r.id := by
      have := Option.some.inj heq
      rw [← this]
      rfl
    have hrs : r ∈ store := (List.mem_filter.mp hr).1
    rw [hid]
    exact List.mem_map.mpr ⟨r, hrs, rfl⟩
